import Mathlib

/-!
Verification of the orbit-model construction and interpolation engine of
`gnssmapper/satellitedata.py`.

The Python module is shallowly embedded here:

* NumPy float values are modelled by exact rationals `ℚ`; the NaN sentinel is
  modelled by `Option ℚ` (`none` = NaN).  All arithmetic performed by the
  module on available data is rational, so this is exact.
* NumPy 1-D arrays become `List`s; the 2-D result of `_locate_sat` becomes a
  list of triples.  Where the source relies on NumPy broadcasting to assign a
  result block into the output array, the broadcasting compatibility rule is
  modelled explicitly (`bcast1dTo2d`).
* `scipy.interpolate.lagrange` is embedded as the exact interpolating
  polynomial in Lagrange form over ascending coefficient lists (`lagrange`),
  matching the source's reversal of scipy's descending coefficients.
* Python exceptions (`IndexError` from `idxs[-1]`, the `ValueError` raised by
  a failing NumPy broadcast, network errors of `_get_sp3_file`, and the
  explicit `ValueError` of `_poly_lagrange`) are modelled with `Except Unit`.
* `warnings.warn` calls are modelled by an accumulated list of structured
  `Warn` values.
* The filesystem behind `_load_orbit` / `_save_orbit` / `metadata` and the
  network behind `_get_sp3_file` are external to the module; they are
  modelled as explicit state (`SatState.files`) and as a fetch oracle
  passed to `_update_orbits`.
-/

/-! ## Polynomial kernel (ascending coefficient lists)

`numpy.polynomial.polynomial.polyval` evaluates ascending coefficients by
Horner's scheme; `polyval` below is that evaluator.  `polyAdd`, `polySmul`
and `polyMul` are used only to express the interpolating polynomial that
`scipy.interpolate.lagrange` returns. -/

def polyval (c : List ℚ) (t : ℚ) : ℚ :=
  c.foldr (fun a acc => a + t * acc) 0

def polyAdd : List ℚ → List ℚ → List ℚ
  | [], q => q
  | p, [] => p
  | a :: p, b :: q => (a + b) :: polyAdd p q

def polySmul (c : ℚ) (p : List ℚ) : List ℚ :=
  p.map (fun a => c * a)

def polyMul : List ℚ → List ℚ → List ℚ
  | [], _ => []
  | a :: p, q => polyAdd (polySmul a q) (0 :: polyMul p q)

/-- The Lagrange basis polynomial for node `xi` against the other nodes
`others`: the product of `(X - xj) / (xi - xj)` over `xj ∈ others`. -/
def lagBasis (xi : ℚ) (others : List ℚ) : List ℚ :=
  others.foldr (fun xj acc => polyMul [(0 - xj) / (xi - xj), 1 / (xi - xj)] acc) [1]

/-- Worker for `lagrange`: `pre` are the nodes already processed (needed
because each node's basis polynomial ranges over all the *other* nodes). -/
def lagrangeGo (pre : List ℚ) : List (ℚ × ℚ) → List ℚ
  | [] => []
  | (x, y) :: rest =>
      polyAdd (polySmul y (lagBasis x (pre ++ rest.map Prod.fst)))
        (lagrangeGo (pre ++ [x]) rest)

/-- Embedding of `scipy.interpolate.lagrange(xs, ys)` (composed with the
source's `[::-1]` reversal): the interpolating polynomial through the points
`(xs i, ys i)`, as ascending coefficients. -/
def lagrange (xs ys : List ℚ) : List ℚ :=
  lagrangeGo [] (xs.zip ys)

/-! ## Data model -/

/-- One row of the per-satellite series handed to `_poly_lagrange`:
columns `tm`, `x`, `y`, `z` of the sorted sp3 dataframe. -/
structure Samp where
  tm : ℚ
  x : ℚ
  y : ℚ
  z : ℚ
deriving DecidableEq, Repr

def samp0 : Samp := ⟨0, 0, 0, 0⟩

/-- The per-window coefficient bundle produced by `_poly_lagrange`
(the JSON value stored under the window's midpoint key). -/
structure PolyDict where
  lb : ℚ
  ub : ℚ
  mid : List ℚ
  scale : List ℚ
  x : List ℚ
  y : List ℚ
  z : List ℚ
deriving DecidableEq, Repr

def polyDict0 : PolyDict := ⟨0, 0, [], [], [], [], []⟩

/-- A satellite's ordered window map: midpoint-time key → coefficients. -/
abbrev OrbitSat : Type := List (ℚ × PolyDict)

/-- One day's orbit model: svid → ordered window map. -/
abbrev OrbitDay : Type := List (String × OrbitSat)

/-- The in-memory cache `self.orbits`: day → model. -/
abbrev Orbits : Type := List (String × OrbitDay)

/-! ## `_poly_lagrange` (satellitedata.py lines 251-290) -/

/-- The slice `alldata.iloc[i-3 : i+5]` of 8 consecutive samples around the
center index `i`. -/
def window_slice (i : Nat) (alldata : List Samp) : List Samp :=
  (alldata.drop (i - 3)).take 8

/-- Embedding of `_poly_lagrange(i, alldata)`.  The guard
`if i < 3 or i > len(alldata) - 5: raise ValueError` is the `.error` case
(`len - 5` computed in `ℤ` as in Python).  Otherwise the 8 samples
`alldata.iloc[i-3 : i+5]` are extracted; `lb`/`ub` are the first and eighth
times, `mid` the fourth row, `scale` the componentwise difference of eighth
and first rows, and the coefficients are the Lagrange fit of the
`(row - mid) / scale` rescaled data. -/
def _poly_lagrange (i : Nat) (alldata : List Samp) : Except Unit (ℚ × PolyDict) :=
  if (i : Int) < 3 ∨ (i : Int) > (alldata.length : Int) - 5 then
    .error ()
  else
    let dv := window_slice i alldata
    let d0 := dv.getD 0 samp0
    let d3 := dv.getD 3 samp0
    let d7 := dv.getD 7 samp0
    let scaleT := d7.tm - d0.tm
    let scaleX := d7.x - d0.x
    let scaleY := d7.y - d0.y
    let scaleZ := d7.z - d0.z
    let stm := dv.map (fun s => (s.tm - d3.tm) / scaleT)
    .ok (d3.tm,
      { lb := d0.tm
        ub := d7.tm
        mid := [d3.tm, d3.x, d3.y, d3.z]
        scale := [scaleT, scaleX, scaleY, scaleZ]
        x := lagrange stm (dv.map (fun s => (s.x - d3.x) / scaleX))
        y := lagrange stm (dv.map (fun s => (s.y - d3.y) / scaleY))
        z := lagrange stm (dv.map (fun s => (s.z - d3.z) / scaleZ)) })

/-! ## `_create_orbit` (satellitedata.py lines 219-248) -/

/-- Embedding of Python `list(range(3, stop, 4))` with `stop : ℤ`
(`stop` is `len(orbits) - 5`, which can be negative). -/
def pyRange3 (stop : Int) : List Nat :=
  (List.range (((stop - 3).toNat + 3) / 4)).map (fun k => 3 + 4 * k)

/-- The body of `_create_orbit`'s per-satellite loop (lines 241-246): center
indices `range(3, len - 5, 4)`; `idxs[-1]` on the empty list raises
`IndexError` (the `.error` case); if the last natural index is not
`len - 5` the forced tail center `len - 5` is appended; `_poly_lagrange`
is run at every center. -/
def _create_orbit_sat (orbits : List Samp) : Except Unit (List (ℚ × PolyDict)) :=
  let idxs := pyRange3 ((orbits.length : Int) - 5)
  match idxs.getLast? with
  | none => .error ()
  | some last =>
      let idxs2 := if last ≠ orbits.length - 5 then idxs ++ [orbits.length - 5] else idxs
      idxs2.mapM (fun i => _poly_lagrange i orbits)

/-- Stable insertion sort used to embed Python's `sorted` / `sort_values`. -/
def insertLe {α : Type} (le : α → α → Bool) (a : α) : List α → List α
  | [] => [a]
  | b :: l => if le a b then a :: b :: l else b :: insertLe le a l

def sortByLe {α : Type} (le : α → α → Bool) : List α → List α
  | [] => []
  | a :: l => insertLe le a (sortByLe le l)

/-- Embedding of `_create_orbit(sp3_df)` over rows `(svid, sample)`;
the `date`→`tm` day-offset precomputation of lines 234-235 is the identity
for the single-day inputs the claims concern, so rows carry `tm` directly.
Rows are sorted by `(svid, tm)`, and each distinct svid's series is fed to
the per-satellite loop. -/
def _create_orbit (rows : List (String × Samp)) : Except Unit OrbitDay :=
  let sorted := sortByLe
    (fun a b => a.1 < b.1 || (a.1 = b.1 && decide (a.2.tm ≤ b.2.tm))) rows
  let svids := (sorted.map Prod.fst).dedup
  svids.mapM (fun s => do
    let series := (sorted.filter (fun r => r.1 = s)).map Prod.snd
    let w ← _create_orbit_sat series
    pure (s, w))

/-! ## Position evaluator (`_locate_sat_vectorised`, `_locate_sat`,
satellitedata.py lines 102-177) -/

/-- A NumPy float cell: `none` models NaN. -/
abbrev Val : Type := Option ℚ

/-- Structured stand-ins for the `warnings.warn` messages of the module. -/
inductive Warn where
  /-- Line 140: orbit information not available for `svid` on `day`. -/
  | missingOrbit (svid day : String)
  /-- Line 162: orbits available for `svid` on `day` but no valid window at `t`. -/
  | invalidTime (svid day : String) (t : ℚ)
  /-- Lines 198/202: SP3 product of tier `t` not available, falling back. -/
  | sp3Fallback (t : String)
deriving DecidableEq, Repr

/-- `array.astype("float").astype("int64")`: truncation toward zero. -/
def intTrunc (q : ℚ) : Int :=
  if 0 ≤ q then Int.floor q else Int.ceil q

/-- `np.abs` on a rational (an executable unfolding of `|q|`). -/
def qabs (q : ℚ) : ℚ :=
  if q < 0 then -q else q

theorem qabs_eq_abs (q : ℚ) : qabs q = |q| := by
  unfold qabs
  by_cases h : q < 0
  · simp [h, abs_of_neg h]
  · simp [h, abs_of_nonneg (le_of_not_lt h)]

/-- The nearest-window index search of `_locate_sat_vectorised`
(lines 151-157) for one query time `t`:
`close = np.searchsorted(keys_int, times, side="left")` (on the sorted key
array this is the count of keys `< t`), `lower = max(0, close - 1)`,
`upper = min(len - 1, close)`, and the index with the strictly smaller
absolute distance wins, `upper` on ties. -/
def nearest_window (keys_int : List Int) (t : ℚ) : Int :=
  let close : Int := (keys_int.countP (fun (k : Int) => decide ((k : ℚ) < t)) : Int)
  let lower : Int := max 0 (close - 1)
  let upper : Int := min ((keys_int.length : Int) - 1) close
  let lower_diff := qabs (((keys_int.getD lower.toNat 0 : Int) : ℚ) - t)
  let upper_diff := qabs (((keys_int.getD upper.toNat 0 : Int) : ℚ) - t)
  if lower_diff < upper_diff then lower else upper

/-- The inner closure `predict(i, time)` of `_locate_sat_vectorised`
(lines 159-175): bounds check against the selected window's `lb`/`ub`
(NaN row plus warning when outside), otherwise scaled Horner evaluation and
affine un-scaling per dimension. -/
def predict (svid day : String) (orbit : OrbitSat) (i : Nat) (t : ℚ) :
    List Warn × (Val × Val × Val) :=
  let poly_dict := (orbit.getD i (0, polyDict0)).2
  if t > poly_dict.ub ∨ t < poly_dict.lb then
    ([.invalidTime svid day t], (none, none, none))
  else
    let scaled_time := (t - poly_dict.mid.getD 0 0) / poly_dict.scale.getD 0 0
    ([],
      (some (polyval poly_dict.x scaled_time * poly_dict.scale.getD 1 0 +
          poly_dict.mid.getD 1 0),
       some (polyval poly_dict.y scaled_time * poly_dict.scale.getD 2 0 +
          poly_dict.mid.getD 2 0),
       some (polyval poly_dict.z scaled_time * poly_dict.scale.getD 3 0 +
          poly_dict.mid.getD 3 0)))

/-- The shape of what `_locate_sat_vectorised` returns: the missing-data
branch builds `np.ones_like(times)` — a 1-D vector — while the normal branch
builds `np.array([[x, y, z], ...])`, a `(len times) × 3` matrix. -/
inductive NDRes where
  | oneD (v : List Val)
  | twoD (rows : List (Val × Val × Val))
deriving DecidableEq

/-- Embedding of `_locate_sat_vectorised(day, times, svid)` (lines 136-177).
If the day or svid is absent from the model, it warns and returns the all-NaN
*1-D* vector `np.ones_like(times)`; otherwise each query time selects its
nearest window and is evaluated by `predict`.  (Query times are modelled as
floats, per `_locate_sat`'s docstring.) -/
def _locate_sat_vectorised (orbits : Orbits) (day : String) (times : List ℚ)
    (svid : String) : List Warn × NDRes :=
  match (orbits.lookup day).bind (fun m => m.lookup svid) with
  | none => ([.missingOrbit svid day], .oneD (times.map (fun _ => (none : Val))))
  | some orbit =>
      let keys_int := (orbit.map Prod.fst).map intTrunc
      let results := times.map (fun t =>
        predict svid day orbit (nearest_window keys_int t).toNat t)
      (results.flatMap Prod.fst, .twoD (results.map Prod.snd))

/-- NumPy broadcast compatibility of a 1-D source of length `k` against a
2-D destination block of `rows × cols`: after left-padding the source shape
to `(1, k)`, each dimension must match or be 1. -/
def bcast1dTo2d (k rows cols : Nat) : Bool :=
  (k = cols || k = 1) && (1 = rows || true)

/-- Masked row assignment `output[mask, :] = rows`: rows of `output` whose
mask bit is set receive the next row of `rows` in order. -/
def writeMask : List (Val × Val × Val) → List Bool → List (Val × Val × Val) →
    List (Val × Val × Val)
  | [], _, _ => []
  | out, [], _ => out
  | o :: out, b :: bs, rs =>
      if b then rs.headD o :: writeMask out bs (rs.drop 1)
      else o :: writeMask out bs rs

/-- Embedding of `_locate_sat(day, time, svid)` (lines 102-134): the output
is preallocated as an all-NaN `n × 3` array; for every pair of a distinct day
and a distinct svid, the masked rows are computed by `_locate_sat_vectorised`
and assigned back into the output block.  The assignment applies NumPy
broadcasting: a 1-D result (the missing-data branch, or an empty group's
`np.array([])`) fits a `k × 3` block only when its length is `3` or `1`;
otherwise the assignment raises `ValueError` (the `.error` case). -/
def _locate_sat (orbits : Orbits) (day : List String) (time : List ℚ)
    (svid : List String) : Except Unit (List Warn × List (Val × Val × Val)) := do
  let rows := day.zip (time.zip svid)
  let out0 : List (Val × Val × Val) := List.replicate day.length (none, none, none)
  let day_unique := day.dedup
  let svid_unique := svid.dedup
  day_unique.foldlM (fun acc d =>
    svid_unique.foldlM (fun acc2 s => do
      let mask := rows.map (fun r => r.1 = d && r.2.2 = s)
      let ts := (rows.filter (fun r => r.1 = d && r.2.2 = s)).map (fun r => r.2.1)
      let (w, res) := _locate_sat_vectorised orbits d ts s
      match res with
      | .twoD [] => .error ()
      | .twoD rs => pure (acc2.1 ++ w, writeMask acc2.2 mask rs)
      | .oneD v =>
          if v.length = 3 then
            pure (acc2.1 ++ w, writeMask acc2.2 mask
              (List.replicate 3 (v.getD 0 none, v.getD 1 none, v.getD 2 none)))
          else if v.length = 1 then
            pure (acc2.1 ++ w, writeMask acc2.2 mask
              [(v.getD 0 none, v.getD 0 none, v.getD 0 none)])
          else .error ()) acc) (([] : List Warn), out0)

/-! ## Updater state machine (`_load_orbit`, `_save_orbit`, `metadata`,
`_update_orbits`, satellitedata.py lines 26-53 and 179-216) -/

/-- The SP3 product tiers tried by `_update_orbits`. -/
inductive Tier where
  | final
  | rapid
  | ultra
deriving DecidableEq, Repr

/-- The state owned by a `SatelliteData` instance together with the
filesystem it reads and writes: `orbits` is the in-memory cache
`self.orbits` (an entry models a present key of the defaultdict); `files`
models the per-day persisted records behind `importlib.resources`
(`some none` is a file that exists in the listing but fails to open;
a missing entry is an absent file). -/
structure SatState where
  orbits : List (String × OrbitDay)
  files : List (String × Option OrbitDay)

/-- The `metadata` property (lines 30-38): the day identifiers that have a
persisted record, read from the filename listing. -/
def SatState.metadata (s : SatState) : List String :=
  s.files.map Prod.fst

/-- Embedding of `_load_orbit(day)` (lines 40-49): deserialize the day's
record; `OSError` (absent or unreadable file) yields the empty dict. -/
def _load_orbit (s : SatState) (day : String) : OrbitDay :=
  match s.files.lookup day with
  | some (some m) => m
  | _ => []

/-- Replace-or-append on the persisted files, the effect of writing
`orbits_<day>.json`. -/
def upsertFile (day : String) (m : Option OrbitDay) :
    List (String × Option OrbitDay) → List (String × Option OrbitDay)
  | [] => [(day, m)]
  | (d, v) :: rest =>
      if d = day then (day, m) :: rest else (d, v) :: upsertFile day m rest

/-- Embedding of `_save_orbit(day, data_var)` (lines 51-53). -/
def _save_orbit (s : SatState) (day : String) (m : OrbitDay) : SatState :=
  { s with files := upsertFile day (some m) s.files }

/-- The nested `try` chain of `_update_orbits` (lines 195-205): the `final`
product is tried first; on failure a warning is emitted and `rapid` is
tried; on failure again a warning is emitted and `ultra` is tried — the
`ultra` attempt is *not* guarded, so its failure propagates. -/
def acquire_sp3 {σ : Type} (fetch : Tier → Except Unit σ) :
    Except Unit (List Warn × σ) :=
  match fetch .final with
  | .ok sp3 => .ok ([], sp3)
  | .error _ =>
      match fetch .rapid with
      | .ok sp3 => .ok ([.sp3Fallback "final"], sp3)
      | .error _ =>
          match fetch .ultra with
          | .ok sp3 => .ok ([.sp3Fallback "final", .sp3Fallback "rapid"], sp3)
          | .error e => .error e

/-- One iteration of the `for day in missing_days` loop of `_update_orbits`
(lines 192-212): acquire an SP3 product with tier fallback, parse and fit it,
sort each satellite's windows by key, and persist the day. -/
def update_missing_day {σ : Type} (fetch : String → Tier → Except Unit σ)
    (parse : σ → List (String × Samp)) (acc : List Warn × SatState)
    (day : String) : Except Unit (List Warn × SatState) :=
  match acquire_sp3 (fetch day) with
  | .error e => .error e
  | .ok (w, sp3) =>
      match _create_orbit (parse sp3) with
      | .error e => .error e
      | .ok unsorted_orbit =>
          let orbit_dic := unsorted_orbit.map (fun p =>
            (p.1, sortByLe (fun a b => decide (a.1 ≤ b.1)) p.2))
          .ok (acc.1 ++ w, _save_orbit acc.2 day orbit_dic)

/-- The trailing load loop of `_update_orbits` (lines 214-216): every
requested day not yet a key of the in-memory cache is loaded (possibly as
the empty dict) from its persisted record. -/
def load_requested (ds : List String) (s : SatState) : SatState :=
  ds.foldl (fun st d =>
    if (st.orbits.lookup d).isSome then st
    else { st with orbits := (d, _load_orbit st d) :: st.orbits }) s

/-- The set difference `days_ - self.metadata` (line 188): the requested
days that have no persisted record and so trigger acquisition. -/
def missing_days (days : List String) (s : SatState) : List String :=
  days.dedup.filter (fun d => ¬ d ∈ s.metadata)

/-- Embedding of `_update_orbits(days)` (lines 179-216).  The network fetch
`_get_sp3_file` and the SP3 text parser `_get_sp3_dataframe` are external
collaborators, passed as the oracles `fetch` and `parse`; `set(days)` is
modelled as first-occurrence dedup (no property below depends on the
iteration order of the set). -/
def _update_orbits {σ : Type} (fetch : String → Tier → Except Unit σ)
    (parse : σ → List (String × Samp)) (days : List String) (s : SatState) :
    Except Unit (List Warn × SatState) :=
  match (missing_days days s).foldlM (update_missing_day fetch parse) ([], s) with
  | .error e => .error e
  | .ok acc1 => .ok (acc1.1, load_requested days.dedup acc1.2)

/-! ## Interpolation exactness of the embedded `lagrange` -/

theorem polyval_polyAdd (p q : List ℚ) (t : ℚ) :
    polyval (polyAdd p q) t = polyval p t + polyval q t := by
  induction p generalizing q with
  | nil => simp [polyAdd, polyval]
  | cons a p ih =>
      cases q with
      | nil => simp [polyAdd, polyval]
      | cons b q =>
          simp only [polyAdd, polyval, List.foldr] at *
          rw [ih]
          ring

theorem polyval_polySmul (c : ℚ) (p : List ℚ) (t : ℚ) :
    polyval (polySmul c p) t = c * polyval p t := by
  induction p with
  | nil => simp [polySmul, polyval]
  | cons a p ih =>
      simp only [polySmul, polyval, List.map, List.foldr] at *
      rw [ih]
      ring

theorem polyval_cons (a : ℚ) (p : List ℚ) (t : ℚ) :
    polyval (a :: p) t = a + t * polyval p t := rfl

theorem polyval_polyMul (p q : List ℚ) (t : ℚ) :
    polyval (polyMul p q) t = polyval p t * polyval q t := by
  induction p with
  | nil => simp [polyMul, polyval]
  | cons a p ih =>
      simp only [polyMul]
      rw [polyval_polyAdd, polyval_polySmul, polyval_cons, polyval_cons, ih]
      ring

theorem polyval_lagBasis (xi : ℚ) (others : List ℚ) (t : ℚ) :
    polyval (lagBasis xi others) t =
      (others.map (fun xj => (t - xj) / (xi - xj))).prod := by
  induction others with
  | nil => simp [lagBasis, polyval]
  | cons xj rest ih =>
      simp only [lagBasis, List.foldr, List.map, List.prod_cons]
      rw [polyval_polyMul]
      simp only [lagBasis] at ih
      rw [ih]
      simp only [polyval, List.foldr]
      ring

theorem lagBasis_eval_self (xi : ℚ) (others : List ℚ)
    (h : ∀ xj ∈ others, xi ≠ xj) :
    polyval (lagBasis xi others) xi = 1 := by
  rw [polyval_lagBasis]
  apply List.prod_eq_one
  intro x hx
  obtain ⟨xj, hj, rfl⟩ := List.mem_map.mp hx
  exact div_self (sub_ne_zero.mpr (h xj hj))

theorem lagBasis_eval_other (xi : ℚ) (others : List ℚ) (xk : ℚ)
    (h : xk ∈ others) :
    polyval (lagBasis xi others) xk = 0 := by
  rw [polyval_lagBasis]
  apply List.prod_eq_zero
  have : (xk - xk) / (xi - xk) = 0 := by rw [sub_self, zero_div]
  exact this ▸ List.mem_map_of_mem (fun xj => (xk - xj) / (xi - xj)) h

theorem lagrangeGo_eval_of_mem_pre (rest : List (ℚ × ℚ)) (pre : List ℚ) (t : ℚ)
    (h : t ∈ pre) :
    polyval (lagrangeGo pre rest) t = 0 := by
  induction rest generalizing pre with
  | nil => simp [lagrangeGo, polyval]
  | cons xy rest ih =>
      obtain ⟨x, y⟩ := xy
      simp only [lagrangeGo]
      rw [polyval_polyAdd, polyval_polySmul,
        lagBasis_eval_other x _ t (List.mem_append_left _ h),
        ih (pre ++ [x]) (List.mem_append_left _ h)]
      ring

theorem lagrangeGo_eval_node (rest : List (ℚ × ℚ)) (pre : List ℚ)
    (xk yk : ℚ) (hmem : (xk, yk) ∈ rest) (hpre : ¬ xk ∈ pre)
    (hnodup : (rest.map Prod.fst).Nodup) :
    polyval (lagrangeGo pre rest) xk = yk := by
  induction rest generalizing pre with
  | nil => exact absurd hmem (List.not_mem_nil _)
  | cons xy rest ih =>
      obtain ⟨x, y⟩ := xy
      simp only [List.map, List.nodup_cons] at hnodup
      obtain ⟨hxnot, hnodup'⟩ := hnodup
      rcases List.mem_cons.mp hmem with heq | hmem'
      · have hx : xk = x := (Prod.ext_iff.mp heq).1
        have hy : yk = y := (Prod.ext_iff.mp heq).2
        subst hx
        subst hy
        simp only [lagrangeGo]
        rw [polyval_polyAdd, polyval_polySmul]
        rw [lagBasis_eval_self]
        · rw [lagrangeGo_eval_of_mem_pre _ _ _ (List.mem_append_right _ (by simp))]
          ring
        · intro xj hj heqj
          rcases List.mem_append.mp hj with hj1 | hj2
          · exact hpre (heqj ▸ hj1)
          · exact hxnot (heqj ▸ hj2)
      · have hxk_rest : xk ∈ rest.map Prod.fst :=
          List.mem_map_of_mem Prod.fst hmem'
        simp only [lagrangeGo]
        rw [polyval_polyAdd, polyval_polySmul,
          lagBasis_eval_other x _ xk (List.mem_append_right _ hxk_rest)]
        rw [ih (pre ++ [x]) hmem' ?_ hnodup']
        · ring
        · intro hc
          rcases List.mem_append.mp hc with h1 | h2
          · exact hpre h1
          · have : xk = x := by simpa using h2
            exact hxnot (this ▸ hxk_rest)

theorem lagrange_eval_node (xs ys : List ℚ) (k : Nat)
    (hk : k < xs.length) (hlen : xs.length ≤ ys.length) (hnodup : xs.Nodup) :
    polyval (lagrange xs ys) (xs.getD k 0) = ys.getD k 0 := by
  have hky : k < ys.length := lt_of_lt_of_le hk hlen
  have hkz : k < (xs.zip ys).length := by
    rw [List.length_zip]; omega
  have hget := @List.get_zip ℚ ℚ xs ys ⟨k, hkz⟩
  have hmem0 : (xs.zip ys).get ⟨k, hkz⟩ ∈ xs.zip ys := List.get_mem _ _ _
  rw [List.getD_eq_get xs 0 hk, List.getD_eq_get ys 0 hky]
  apply lagrangeGo_eval_node (xs.zip ys) [] _ _ (hget ▸ hmem0) (List.not_mem_nil _)
  rw [List.map_fst_zip xs ys hlen]
  exact hnodup

/-! ## Properties of the nearest-window search -/

theorem countP_lt_eq_pivot (keys : List Int) (t : ℚ) (j : Nat)
    (hj : j ≤ keys.length)
    (hiff : ∀ i, (hi : i < keys.length) →
      (i < j ↔ ((keys.get ⟨i, hi⟩ : Int) : ℚ) < t)) :
    keys.countP (fun (k : Int) => decide ((k : ℚ) < t)) = j := by
  induction keys generalizing j with
  | nil =>
      have : j = 0 := Nat.le_zero.mp hj
      simp [this]
  | cons k ks ih =>
      cases j with
      | zero =>
          apply List.countP_eq_zero.mpr
          intro a ha
          obtain ⟨⟨i, hi⟩, rfl⟩ := List.mem_iff_get.mp ha
          simp only [decide_eq_true_eq]
          intro hlt
          exact absurd ((hiff i hi).mpr hlt) (Nat.not_lt_zero i)
      | succ j' =>
          have hk : ((k : Int) : ℚ) < t := by
            have := (hiff 0 (Nat.succ_pos _)).mp (Nat.succ_pos _)
            simpa using this
          rw [List.countP_cons_of_pos _ _ (by simpa using hk)]
          rw [ih j' (Nat.lt_succ_iff.mp (Nat.lt_of_lt_of_le (Nat.lt_succ_self _) hj))]
          intro i hi
          have := hiff (i + 1) (Nat.succ_lt_succ hi)
          simpa [Nat.succ_lt_succ_iff] using this

theorem pairwise_get_le (keys : List Int) (a b : Nat)
    (hs : List.Pairwise (· < ·) keys) (hab : a ≤ b) (hb : b < keys.length) :
    keys.get ⟨a, Nat.lt_of_le_of_lt hab hb⟩ ≤ keys.get ⟨b, hb⟩ := by
  rcases Nat.lt_or_ge a b with h | h
  · exact le_of_lt (List.pairwise_iff_get.mp hs ⟨a, _⟩ ⟨b, hb⟩ h)
  · have : a = b := Nat.le_antisymm hab h
    subst this
    exact le_refl _

/-- Bounds and boundary clamping of the nearest-window index selection:
the produced index always lies in `[0, len - 1]`; a query strictly before
the first midpoint selects index 0 and a query strictly after the last
midpoint selects the last index. -/
theorem nearest_window_spec (keys : List Int) (t : ℚ)
    (hne : keys ≠ []) (hs : List.Pairwise (· < ·) keys) :
    (0 ≤ nearest_window keys t ∧ nearest_window keys t < (keys.length : Int)) ∧
    (t < ((keys.headD 0 : Int) : ℚ) → nearest_window keys t = 0) ∧
    (((keys.getLastD 0 : Int) : ℚ) < t →
      nearest_window keys t = (keys.length : Int) - 1) := by
  have hlen : 0 < keys.length := List.length_pos.mpr hne
  have hcle : keys.countP (fun (k : Int) => decide ((k : ℚ) < t)) ≤ keys.length :=
    List.countP_le_length _
  refine ⟨?_, ?_, ?_⟩
  · simp only [nearest_window]
    split
    · constructor
      · exact le_max_left 0 _
      · rw [max_lt_iff]
        omega
    · constructor
      · rw [le_min_iff]
        omega
      · have : ((keys.length : Int) - 1) < (keys.length : Int) := by omega
        exact lt_of_le_of_lt (min_le_left _ _) this
  · intro ht
    have hhead : keys.headD 0 = keys.get ⟨0, hlen⟩ := by
      cases keys with
      | nil => exact absurd rfl hne
      | cons a l => rfl
    have hc0 : keys.countP (fun (k : Int) => decide ((k : ℚ) < t)) = 0 := by
      apply countP_lt_eq_pivot keys t 0 (Nat.zero_le _)
      intro i hi
      constructor
      · omega
      · intro hlt
        exfalso
        have h0i : keys.get ⟨0, hlen⟩ ≤ keys.get ⟨i, hi⟩ :=
          pairwise_get_le keys 0 i hs (Nat.zero_le _) hi
        have : ((keys.get ⟨0, hlen⟩ : Int) : ℚ) ≤ ((keys.get ⟨i, hi⟩ : Int) : ℚ) := by
          exact_mod_cast h0i
        rw [hhead] at ht
        linarith
    simp only [nearest_window, hc0]
    have h1 : max (0 : Int) (((0 : Nat) : Int) - 1) = 0 := by
      norm_num
    have h2 : min ((keys.length : Int) - 1) ((0 : Nat) : Int) = 0 := by
      norm_num
      omega
    rw [h1, h2]
    split
    · rfl
    · rfl
  · intro ht
    have hlast : keys.getLastD 0 = keys.get ⟨keys.length - 1, by omega⟩ := by
      rw [List.getLastD_eq_getLast?, List.getLast?_eq_get? keys,
        List.get?_eq_get (by omega)]
      rfl
    have hcn : keys.countP (fun (k : Int) => decide ((k : ℚ) < t)) = keys.length := by
      apply countP_lt_eq_pivot keys t keys.length (le_refl _)
      intro i hi
      constructor
      · intro _
        have hile : keys.get ⟨i, hi⟩ ≤ keys.get ⟨keys.length - 1, by omega⟩ :=
          pairwise_get_le keys i (keys.length - 1) hs (by omega) (by omega)
        have : ((keys.get ⟨i, hi⟩ : Int) : ℚ) ≤
            ((keys.get ⟨keys.length - 1, by omega⟩ : Int) : ℚ) := by
          exact_mod_cast hile
        rw [hlast] at ht
        linarith
      · intro _
        exact hi
    simp only [nearest_window, hcn]
    have h1 : max (0 : Int) (((keys.length : Nat) : Int) - 1) =
        (keys.length : Int) - 1 := by omega
    have h2 : min ((keys.length : Int) - 1) ((keys.length : Nat) : Int) =
        (keys.length : Int) - 1 := by omega
    rw [h1, h2]
    split
    · rfl
    · rfl

/-! ## Claims -/

/-- C2 (counterexample): for the ordered midpoint keys `[0, 2100]` and the
query time `1050`, exactly equidistant between the two adjacent midpoints,
the nearest-window search of `_locate_sat_vectorised` selects index `1`
(the upper/later window), not index `0` (the lower/earlier window the claim
asserts). -/
theorem c2_counterexample :
    nearest_window [0, 2100] 1050 = 1 ∧ (1 : Int) ≠ 0 := by
  constructor
  · with_unfolding_all decide
  · decide

/-- C2 (amended): for every query time exactly equidistant between two
adjacent window midpoints of a sorted key list, the nearest-window search of
`_locate_sat_vectorised` deterministically selects the *upper/later* window
(the one with the larger midpoint timestamp): `np.where(lower_diff <
upper_diff, lower, upper)` keeps `upper` when the distances are equal. -/
theorem c2_tie_selects_upper (keys : List Int) (t : ℚ) (j : Nat)
    (hs : List.Pairwise (· < ·) keys)
    (hj : j + 1 < keys.length)
    (hlow : ((keys.getD j 0 : Int) : ℚ) < t)
    (hhigh : t < ((keys.getD (j + 1) 0 : Int) : ℚ))
    (heq : t - ((keys.getD j 0 : Int) : ℚ) = ((keys.getD (j + 1) 0 : Int) : ℚ) - t) :
    nearest_window keys t = (j : Int) + 1 := by
  have hjlen : j < keys.length := by omega
  have hgj : keys.getD j 0 = keys.get ⟨j, hjlen⟩ := List.getD_eq_get _ _ hjlen
  have hgj1 : keys.getD (j + 1) 0 = keys.get ⟨j + 1, hj⟩ := List.getD_eq_get _ _ hj
  rw [hgj] at hlow heq
  rw [hgj1] at hhigh heq
  have hcj : keys.countP (fun (k : Int) => decide ((k : ℚ) < t)) = j + 1 := by
    apply countP_lt_eq_pivot keys t (j + 1) (by omega)
    intro i hi
    constructor
    · intro hij
      have hle : keys.get ⟨i, hi⟩ ≤ keys.get ⟨j, hjlen⟩ :=
        pairwise_get_le keys i j hs (by omega) hjlen
      have hc : ((keys.get ⟨i, hi⟩ : Int) : ℚ) ≤ ((keys.get ⟨j, hjlen⟩ : Int) : ℚ) := by
        exact_mod_cast hle
      linarith
    · intro hlt
      by_contra hnot
      have hge : keys.get ⟨j + 1, hj⟩ ≤ keys.get ⟨i, hi⟩ :=
        pairwise_get_le keys (j + 1) i hs (by omega) hi
      have hc : ((keys.get ⟨j + 1, hj⟩ : Int) : ℚ) ≤ ((keys.get ⟨i, hi⟩ : Int) : ℚ) := by
        exact_mod_cast hge
      linarith
  simp only [nearest_window, hcj]
  have hl : max (0 : Int) (((j + 1 : Nat) : Int) - 1) = ((j : Nat) : Int) := by
    push_cast
    omega
  have hu : min ((keys.length : Int) - 1) ((j + 1 : Nat) : Int) =
      ((j + 1 : Nat) : Int) := by
    push_cast
    omega
  rw [hl, hu, Int.toNat_natCast, Int.toNat_natCast, hgj, hgj1]
  have hld : qabs (((keys.get ⟨j, hjlen⟩ : Int) : ℚ) - t) =
      t - ((keys.get ⟨j, hjlen⟩ : Int) : ℚ) := by
    unfold qabs
    rw [if_pos (by linarith)]
    ring
  have hud : qabs (((keys.get ⟨j + 1, hj⟩ : Int) : ℚ) - t) =
      ((keys.get ⟨j + 1, hj⟩ : Int) : ℚ) - t := by
    unfold qabs
    rw [if_neg (by linarith)]
  rw [hld, hud, heq, if_neg (lt_irrefl _)]
  push_cast
  ring

set_option maxRecDepth 4000 in
/-- C2 (witness): the amended tie-break theorem applied to the concrete key
list `[0, 2100]` at the equidistant query time `1050`. -/
theorem c2_tie_selects_upper_witness : nearest_window [0, 2100] 1050 = (0 : Int) + 1 :=
  c2_tie_selects_upper [0, 2100] 1050 0 (by decide) (by decide)
    (by with_unfolding_all decide) (by with_unfolding_all decide)
    (by with_unfolding_all decide)

/-- C10: for every non-empty sorted key list, the nearest-window search of
`_locate_sat_vectorised` clamps its index to `[0, len - 1]`; a query time
strictly before the first midpoint selects the first window and one strictly
after the last midpoint selects the last window, so the subsequent window
lookup never sees an out-of-range index. -/
theorem c10_nearest_window_clamped (keys : List Int) (t : ℚ)
    (hne : keys ≠ []) (hs : List.Pairwise (· < ·) keys) :
    (0 ≤ nearest_window keys t ∧ nearest_window keys t < (keys.length : Int)) ∧
    (t < ((keys.headD 0 : Int) : ℚ) → nearest_window keys t = 0) ∧
    (((keys.getLastD 0 : Int) : ℚ) < t →
      nearest_window keys t = (keys.length : Int) - 1) :=
  nearest_window_spec keys t hne hs

/-- C10 (witness): the clamping theorem applied to the concrete key list
`[0, 2100]` at the out-of-range query time `-5`, which selects window 0. -/
theorem c10_nearest_window_clamped_witness :
    nearest_window [0, 2100] (-5) = 0 :=
  (c10_nearest_window_clamped [0, 2100] (-5) (by decide) (by decide)).2.1
    (by with_unfolding_all decide)

/-- C7: for every selected window, a query time strictly outside the
inclusive interval `[lb, ub]` makes `predict` return the all-NaN row
together with the "valid dictionary wasn't found" warning and no
extrapolated value, while a query time inside — boundaries included — is
evaluated: no warning and three finite coordinates. -/
theorem c7_predict_boundary (svid day : String) (orbit : OrbitSat) (i : Nat) (t : ℚ) :
    (t < (orbit.getD i (0, polyDict0)).2.lb ∨ (orbit.getD i (0, polyDict0)).2.ub < t →
      predict svid day orbit i t = ([.invalidTime svid day t], (none, none, none))) ∧
    ((orbit.getD i (0, polyDict0)).2.lb ≤ t → t ≤ (orbit.getD i (0, polyDict0)).2.ub →
      ∃ px py pz : ℚ, predict svid day orbit i t = ([], (some px, some py, some pz))) := by
  constructor
  · intro h
    simp only [predict]
    rw [if_pos]
    rcases h with h | h
    · exact Or.inr h
    · exact Or.inl h
  · intro h1 h2
    simp only [predict]
    rw [if_neg]
    · exact ⟨_, _, _, rfl⟩
    · push_neg
      exact ⟨h2, h1⟩

/-- A demonstration window valid on `[0, 2100]`. -/
def demoPolyDict : PolyDict :=
  { lb := 0, ub := 2100, mid := [900, 0, 0, 0], scale := [2100, 1, 1, 1]
    x := [0], y := [0], z := [0] }

def demoOrbit : OrbitSat := [(900, demoPolyDict)]

/-- C7 (witness): the boundary theorem applied one nanosecond above the
demonstration window's upper bound: the sentinel row plus warning. -/
theorem c7_predict_boundary_witness :
    predict "G01" "2020042" demoOrbit 0 2101 =
      ([.invalidTime "G01" "2020042" 2101], (none, none, none)) :=
  (c7_predict_boundary "G01" "2020042" demoOrbit 0 2101).1
    (by with_unfolding_all decide)

/-- The 12-sample series of the C4 scenario: one satellite, times
`0, 300, 600, ..., 3300`. -/
def sampleSeries12 : List Samp :=
  [⟨0, 1, 5, 7⟩, ⟨300, 2, 7, 6⟩, ⟨600, 5, 9, 5⟩, ⟨900, 10, 11, 4⟩,
   ⟨1200, 17, 13, 3⟩, ⟨1500, 26, 15, 2⟩, ⟨1800, 37, 17, 1⟩, ⟨2100, 50, 19, 0⟩,
   ⟨2400, 65, 21, -1⟩, ⟨2700, 82, 23, -2⟩, ⟨3000, 101, 25, -3⟩,
   ⟨3300, 122, 27, -4⟩]

/-- An 8-sample series (times `0 .. 2100`). -/
def sampleSeries8 : List Samp := sampleSeries12.take 8

/-- A 5-sample series (times `0 .. 1200`). -/
def sampleSeries5 : List Samp := sampleSeries12.take 5

/-- The key, lower bound and upper bound of each window produced by the
per-satellite fitting loop. -/
def windowBounds : Except Unit (List (ℚ × PolyDict)) → List (ℚ × ℚ × ℚ)
  | .ok l => l.map (fun p => (p.1, p.2.lb, p.2.ub))
  | .error _ => []

/-- C4 (counterexample): on the 12-sample series the fitter produces the two
windows keyed `900` and `2100` (centers 3 and 7) with bounds `[0, 2100]` and
`[1200, 3300]`: the second window's lower bound is `1200` — the time of
sample 4 = `7 - 3` — not `600` as the claim states. -/
theorem c4_counterexample :
    windowBounds (_create_orbit_sat sampleSeries12) =
      [(900, 0, 2100), (2100, 1200, 3300)] ∧ (1200 : ℚ) ≠ 600 := by
  constructor
  · rfl
  · norm_num

/-- C4 (amended): a satellite series of exactly 12 samples at times
`0, 300, ..., 3300` produces exactly 2 windows, centered at sample indices 3
and 7 (the forced tail window) — their keys are the center times `900` and
`2100` — with `lower_bound = 0`, `upper_bound = 2100` for the first and
`lower_bound = 1200`, `upper_bound = 3300` for the second. -/
theorem c4_two_windows :
    windowBounds (_create_orbit_sat sampleSeries12) =
      [(900, 0, 2100), (2100, 1200, 3300)] := by
  rfl

/-- C5: the fitting loop crashes instead of degrading on short series: for a
series of 8 samples (and likewise any shorter one) `range(3, len - 5, 4)` is
empty, so `idxs[-1]` raises `IndexError` — no window is produced and the
exception propagates, contradicting both the "at least one window for 8
samples" and the "reported, not raised" halves of the claim. -/
theorem c5_short_series_raises :
    _create_orbit_sat sampleSeries8 = .error () ∧
    _create_orbit_sat sampleSeries5 = .error () := by
  exact ⟨rfl, rfl⟩

/-- C1: querying a `(day, satellite)` pair absent from the orbit model:
`_locate_sat_vectorised` does warn, but returns the *1-D* all-NaN vector
`np.ones_like(times)` instead of per-row triples, and assigning that vector
into the `(group size) × 3` output block of `_locate_sat` raises a NumPy
broadcast `ValueError` for the 2-row group, so the call does raise. -/
theorem c1_missing_orbit_shape_bug :
    _locate_sat_vectorised [] "2020042" [0, 300] "G01"
      = ([.missingOrbit "G01" "2020042"], .oneD [none, none]) ∧
    _locate_sat [] ["2020042", "2020042"] [0, 300] ["G01", "G01"] = .error () := by
  exact ⟨rfl, rfl⟩

/-- A fetch oracle on which every SP3 product tier fails. -/
def failFetch : String → Tier → Except Unit Unit := fun _ _ => .error ()

/-- A parser stub (never reached when every fetch fails). -/
def parse0 : Unit → List (String × Samp) := fun _ => []

/-- A fresh `SatelliteData` state: empty cache, no persisted records. -/
def emptyState : SatState := ⟨[], []⟩

/-- C3 (counterexample): requesting one missing day while all three product
tiers fail: `_update_orbits` raises (the `ultra` attempt is not guarded by a
`try`), instead of completing without raising as the claim states. -/
theorem c3_counterexample :
    _update_orbits failFetch parse0 ["2020042"] emptyState = .error () := rfl

theorem foldlM_update_error {σ : Type} (fetch : String → Tier → Except Unit σ)
    (parse : σ → List (String × Samp)) (d : String)
    (hfin : fetch d .final = .error ()) (hrap : fetch d .rapid = .error ())
    (hult : fetch d .ultra = .error ()) :
    ∀ (missing : List String) (acc : List Warn × SatState), d ∈ missing →
      missing.foldlM (update_missing_day fetch parse) acc = .error () := by
  intro missing
  induction missing with
  | nil =>
      intro acc h
      exact absurd h (List.not_mem_nil _)
  | cons y rest ih =>
      intro acc hmem
      rw [List.foldlM_cons]
      rcases List.mem_cons.mp hmem with heq | hmem'
      · subst heq
        have hupd : update_missing_day fetch parse acc d = .error () := by
          unfold update_missing_day acquire_sp3
          rw [hfin, hrap, hult]
        rw [hupd]
        rfl
      · cases hy : update_missing_day fetch parse acc y with
        | error e =>
            cases e
            rfl
        | ok acc' =>
            exact ih acc' hmem'

/-- C3 (amended): for a requested day absent from the persisted metadata,
acquisition attempts the tiers in the order final, rapid, ultra, the first
two failures falling through with a warning each; but when the `ultra` tier
also fails, `acquire_sp3` — and with it the whole `_update_orbits` call —
raises (the exception propagates), leaving the day unbuilt. -/
theorem c3_all_tiers_fail_raises {σ : Type} (fetch : String → Tier → Except Unit σ)
    (parse : σ → List (String × Samp)) (days : List String) (s : SatState)
    (d : String) (hmem : d ∈ days) (hmiss : ¬ d ∈ s.metadata)
    (hfin : fetch d .final = .error ()) (hrap : fetch d .rapid = .error ())
    (hult : fetch d .ultra = .error ()) :
    acquire_sp3 (fetch d) = .error () ∧
    _update_orbits fetch parse days s = .error () := by
  have hacq : acquire_sp3 (fetch d) = .error () := by
    unfold acquire_sp3
    rw [hfin, hrap, hult]
  refine ⟨hacq, ?_⟩
  have hdm : d ∈ missing_days days s := by
    unfold missing_days
    rw [List.mem_filter]
    exact ⟨List.mem_dedup.mpr hmem, by simpa using hmiss⟩
  unfold _update_orbits
  rw [foldlM_update_error fetch parse d hfin hrap hult (missing_days days s)
    ([], s) hdm]

/-- C3 (witness): the amended theorem applied to the all-failing fetch
oracle, one missing day and a fresh state. -/
theorem c3_all_tiers_fail_raises_witness :
    acquire_sp3 (failFetch "2020042") = .error () ∧
    _update_orbits failFetch parse0 ["2020042"] emptyState = .error () :=
  c3_all_tiers_fail_raises failFetch parse0 ["2020042"] emptyState "2020042"
    (List.mem_singleton.mpr rfl) (by simp [emptyState, SatState.metadata])
    rfl rfl rfl

theorem window_slice_length (i : Nat) (alldata : List Samp)
    (h3 : 3 ≤ i) (h5 : i + 5 ≤ alldata.length) :
    (window_slice i alldata).length = 8 := by
  unfold window_slice
  rw [List.length_take, List.length_drop]
  omega

theorem window_slice_getD (i k : Nat) (alldata : List Samp) (hk : k < 8) :
    (window_slice i alldata).getD k samp0 = alldata.getD (i - 3 + k) samp0 := by
  unfold window_slice
  rw [List.getD_eq_getD_get?, List.getD_eq_getD_get?, List.get?_take hk,
    List.get?_drop]

theorem getD_map_lt {α β : Type} (f : α → β) (l : List α) (j : Nat)
    (hj : j < l.length) (d : α) (e : β) :
    (l.map f).getD j e = f (l.getD j d) := by
  rw [List.getD_eq_getElem (l.map f) e (by simpa using hj),
    List.getD_eq_getElem l d hj, List.getElem_map]

/-- The guard of `_poly_lagrange` is passed exactly on the valid center
range, and inside it the fit only depends on the 8-sample slice. -/
theorem poly_lagrange_eq_slice (i : Nat) (alldata : List Samp)
    (h3 : 3 ≤ i) (h5 : i + 5 ≤ alldata.length) :
    _poly_lagrange i alldata = _poly_lagrange 3 (window_slice i alldata) := by
  have hlen8 : (window_slice i alldata).length = 8 :=
    window_slice_length i alldata h3 h5
  have hg1 : ¬ ((i : Int) < 3 ∨ (i : Int) > (alldata.length : Int) - 5) := by
    push_neg
    omega
  have hg2 : ¬ (((3 : Nat) : Int) < 3 ∨
      ((3 : Nat) : Int) > ((window_slice i alldata).length : Int) - 5) := by
    rw [hlen8]
    decide
  have hslice : window_slice 3 (window_slice i alldata) = window_slice i alldata := by
    show ((window_slice i alldata).drop (3 - 3)).take 8 = window_slice i alldata
    rw [Nat.sub_self, List.drop_zero, ← hlen8, List.take_length]
  unfold _poly_lagrange
  rw [if_neg hg1, if_neg hg2, hslice]

/-- The explicit value `_poly_lagrange` returns on a valid center index,
with every component spelled in terms of the 8-sample slice. -/
theorem poly_lagrange_ok_form (i : Nat) (alldata : List Samp)
    (h3 : 3 ≤ i) (h5 : i + 5 ≤ alldata.length) :
    _poly_lagrange i alldata = .ok (((window_slice i alldata).getD 3 samp0).tm,
      { lb := ((window_slice i alldata).getD 0 samp0).tm
        ub := ((window_slice i alldata).getD 7 samp0).tm
        mid := [((window_slice i alldata).getD 3 samp0).tm,
          ((window_slice i alldata).getD 3 samp0).x,
          ((window_slice i alldata).getD 3 samp0).y,
          ((window_slice i alldata).getD 3 samp0).z]
        scale := [((window_slice i alldata).getD 7 samp0).tm -
            ((window_slice i alldata).getD 0 samp0).tm,
          ((window_slice i alldata).getD 7 samp0).x -
            ((window_slice i alldata).getD 0 samp0).x,
          ((window_slice i alldata).getD 7 samp0).y -
            ((window_slice i alldata).getD 0 samp0).y,
          ((window_slice i alldata).getD 7 samp0).z -
            ((window_slice i alldata).getD 0 samp0).z]
        x := lagrange
          ((window_slice i alldata).map (fun s =>
            (s.tm - ((window_slice i alldata).getD 3 samp0).tm) /
              (((window_slice i alldata).getD 7 samp0).tm -
                ((window_slice i alldata).getD 0 samp0).tm)))
          ((window_slice i alldata).map (fun s =>
            (s.x - ((window_slice i alldata).getD 3 samp0).x) /
              (((window_slice i alldata).getD 7 samp0).x -
                ((window_slice i alldata).getD 0 samp0).x)))
        y := lagrange
          ((window_slice i alldata).map (fun s =>
            (s.tm - ((window_slice i alldata).getD 3 samp0).tm) /
              (((window_slice i alldata).getD 7 samp0).tm -
                ((window_slice i alldata).getD 0 samp0).tm)))
          ((window_slice i alldata).map (fun s =>
            (s.y - ((window_slice i alldata).getD 3 samp0).y) /
              (((window_slice i alldata).getD 7 samp0).y -
                ((window_slice i alldata).getD 0 samp0).y)))
        z := lagrange
          ((window_slice i alldata).map (fun s =>
            (s.tm - ((window_slice i alldata).getD 3 samp0).tm) /
              (((window_slice i alldata).getD 7 samp0).tm -
                ((window_slice i alldata).getD 0 samp0).tm)))
          ((window_slice i alldata).map (fun s =>
            (s.z - ((window_slice i alldata).getD 3 samp0).z) /
              (((window_slice i alldata).getD 7 samp0).z -
                ((window_slice i alldata).getD 0 samp0).z))) }) := by
  unfold _poly_lagrange
  rw [if_neg (by push_neg; omega)]

/-- C6: for every valid center index `3 ≤ i ≤ len - 5`, the Window Fit of
`_poly_lagrange` is built from exactly the 8 consecutive samples of indices
`[i-3, i+5)` (the fit equals the fit of that slice), with `lower_bound` the
first slice sample's time, `upper_bound` the 8th's, `midpoint` the 4th
sample's `(time, x, y, z)` row and `scale` the componentwise difference of
the 8th and 1st samples. -/
theorem c6_window_fit_anatomy (i : Nat) (alldata : List Samp)
    (h3 : 3 ≤ i) (h5 : i + 5 ≤ alldata.length) :
    _poly_lagrange i alldata = _poly_lagrange 3 (window_slice i alldata) ∧
    ∃ cx cy cz : List ℚ,
      _poly_lagrange i alldata = .ok ((alldata.getD i samp0).tm,
        { lb := (alldata.getD (i - 3) samp0).tm
          ub := (alldata.getD (i + 4) samp0).tm
          mid := [(alldata.getD i samp0).tm, (alldata.getD i samp0).x,
            (alldata.getD i samp0).y, (alldata.getD i samp0).z]
          scale := [(alldata.getD (i + 4) samp0).tm - (alldata.getD (i - 3) samp0).tm,
            (alldata.getD (i + 4) samp0).x - (alldata.getD (i - 3) samp0).x,
            (alldata.getD (i + 4) samp0).y - (alldata.getD (i - 3) samp0).y,
            (alldata.getD (i + 4) samp0).z - (alldata.getD (i - 3) samp0).z]
          x := cx
          y := cy
          z := cz }) := by
  refine ⟨poly_lagrange_eq_slice i alldata h3 h5, ?_⟩
  have hform := poly_lagrange_ok_form i alldata h3 h5
  have e0 : i - 3 + 0 = i - 3 := by omega
  have e3 : i - 3 + 3 = i := by omega
  have e7 : i - 3 + 7 = i + 4 := by omega
  rw [window_slice_getD i 0 alldata (by norm_num),
    window_slice_getD i 3 alldata (by norm_num),
    window_slice_getD i 7 alldata (by norm_num), e0, e3, e7] at hform
  exact ⟨_, _, _, hform⟩

/-- C6 (witness): the anatomy theorem applied to the 8-sample series at its
only valid center index 3. -/
theorem c6_window_fit_anatomy_witness :
    _poly_lagrange 3 sampleSeries8 = _poly_lagrange 3 (window_slice 3 sampleSeries8) :=
  (c6_window_fit_anatomy 3 sampleSeries8 (by norm_num) (by decide)).1

theorem lagrange_map_eval (l : List Samp) (tf vf : Samp → ℚ) (j : Nat)
    (hj : j < l.length) (hnodup : (l.map tf).Nodup) :
    polyval (lagrange (l.map tf) (l.map vf)) (tf (l.getD j samp0)) =
      vf (l.getD j samp0) := by
  rw [← getD_map_lt tf l j hj samp0 0, ← getD_map_lt vf l j hj samp0 0]
  apply lagrange_eval_node
  · rw [List.length_map]
    exact hj
  · rw [List.length_map, List.length_map]
  · exact hnodup

/-- Interpolation exactness over one 8-sample window: the evaluator's
scaled Horner evaluation plus affine un-scaling reproduces every source
sample exactly. -/
theorem poly_lagrange_8_exact (svid day : String) (dv : List Samp) (key : ℚ)
    (pd : PolyDict) (j : Nat) (hj : j < 8) (hlen : dv.length = 8)
    (hok : _poly_lagrange 3 dv = .ok (key, pd))
    (hmono : dv.Pairwise (fun a b => a.tm < b.tm))
    (hx : (dv.getD 7 samp0).x ≠ (dv.getD 0 samp0).x)
    (hy : (dv.getD 7 samp0).y ≠ (dv.getD 0 samp0).y)
    (hz : (dv.getD 7 samp0).z ≠ (dv.getD 0 samp0).z) :
    predict svid day [(key, pd)] 0 ((dv.getD j samp0).tm) =
      ([], (some (dv.getD j samp0).x, some (dv.getD j samp0).y,
        some (dv.getD j samp0).z)) := by
  have hws : window_slice 3 dv = dv := by
    show (dv.drop (3 - 3)).take 8 = dv
    rw [Nat.sub_self, List.drop_zero, ← hlen, List.take_length]
  have hform := poly_lagrange_ok_form 3 dv (le_refl 3) (by omega)
  rw [hws, hok] at hform
  simp only [Except.ok.injEq, Prod.mk.injEq] at hform
  obtain ⟨hkey, hpd⟩ := hform
  subst hpd
  have htmle : ∀ a b : Nat, a ≤ b → b < 8 →
      (dv.getD a samp0).tm ≤ (dv.getD b samp0).tm := by
    intro a b hab hb
    rw [List.getD_eq_get dv samp0 (show a < dv.length by omega),
      List.getD_eq_get dv samp0 (show b < dv.length by omega)]
    rcases Nat.lt_or_ge a b with h | h
    · exact le_of_lt (List.pairwise_iff_get.mp hmono ⟨a, by omega⟩ ⟨b, by omega⟩
        (Fin.mk_lt_mk.mpr h))
    · have hab2 : a = b := by omega
      subst hab2
      exact le_refl _
  have htmlt07 : (dv.getD 0 samp0).tm < (dv.getD 7 samp0).tm := by
    rw [List.getD_eq_get dv samp0 (show (0 : Nat) < dv.length by omega),
      List.getD_eq_get dv samp0 (show (7 : Nat) < dv.length by omega)]
    exact List.pairwise_iff_get.mp hmono ⟨0, by omega⟩ ⟨7, by omega⟩
      (Fin.mk_lt_mk.mpr (by norm_num))
  have hTpos : (0 : ℚ) < (dv.getD 7 samp0).tm - (dv.getD 0 samp0).tm := by
    linarith
  have hXne : (dv.getD 7 samp0).x - (dv.getD 0 samp0).x ≠ 0 := sub_ne_zero.mpr hx
  have hYne : (dv.getD 7 samp0).y - (dv.getD 0 samp0).y ≠ 0 := sub_ne_zero.mpr hy
  have hZne : (dv.getD 7 samp0).z - (dv.getD 0 samp0).z ≠ 0 := sub_ne_zero.mpr hz
  have hnodup : (dv.map (fun s =>
      (s.tm - (dv.getD 3 samp0).tm) /
        ((dv.getD 7 samp0).tm - (dv.getD 0 samp0).tm))).Nodup := by
    show List.Pairwise (fun a b => a ≠ b) _
    apply List.Pairwise.map _ ?_ hmono
    intro a b hab
    have h1 : a.tm - (dv.getD 3 samp0).tm < b.tm - (dv.getD 3 samp0).tm := by
      linarith
    exact ne_of_lt ((div_lt_div_iff_of_pos_right hTpos).mpr h1)
  have hble : ¬ ((dv.getD j samp0).tm > (dv.getD 7 samp0).tm ∨
      (dv.getD j samp0).tm < (dv.getD 0 samp0).tm) := by
    push_neg
    exact ⟨htmle j 7 (by omega) (by norm_num), htmle 0 j (by omega) hj⟩
  have hEx := lagrange_map_eval dv
    (fun s => (s.tm - (dv.getD 3 samp0).tm) /
      ((dv.getD 7 samp0).tm - (dv.getD 0 samp0).tm))
    (fun s => (s.x - (dv.getD 3 samp0).x) /
      ((dv.getD 7 samp0).x - (dv.getD 0 samp0).x)) j (by omega) hnodup
  have hEy := lagrange_map_eval dv
    (fun s => (s.tm - (dv.getD 3 samp0).tm) /
      ((dv.getD 7 samp0).tm - (dv.getD 0 samp0).tm))
    (fun s => (s.y - (dv.getD 3 samp0).y) /
      ((dv.getD 7 samp0).y - (dv.getD 0 samp0).y)) j (by omega) hnodup
  have hEz := lagrange_map_eval dv
    (fun s => (s.tm - (dv.getD 3 samp0).tm) /
      ((dv.getD 7 samp0).tm - (dv.getD 0 samp0).tm))
    (fun s => (s.z - (dv.getD 3 samp0).z) /
      ((dv.getD 7 samp0).z - (dv.getD 0 samp0).z)) j (by omega) hnodup
  simp only [] at hEx hEy hEz
  simp only [predict, List.getD_cons_zero]
  rw [if_neg hble]
  simp only [List.getD_cons_zero, List.getD_cons_succ]
  rw [hEx, hEy, hEz, div_mul_cancel₀ _ hXne, div_mul_cancel₀ _ hYne,
    div_mul_cancel₀ _ hZne, sub_add_cancel, sub_add_cancel, sub_add_cancel]

/-- C9: for every Window Fit `_poly_lagrange` produces (strictly increasing
sample times, non-degenerate coordinate spans), evaluating the fitted
degree-7 polynomial through the evaluator's scaled-time Horner evaluation
and affine un-scaling at each of the 8 source sample times reproduces that
sample's x, y and z exactly — interpolation, not least squares (exact over
the rational embedding of the float arithmetic). -/
theorem c9_interpolation_exactness (svid day : String) (i : Nat)
    (alldata : List Samp) (key : ℚ) (pd : PolyDict) (j : Nat) (hj : j < 8)
    (hok : _poly_lagrange i alldata = .ok (key, pd))
    (hmono : (window_slice i alldata).Pairwise (fun a b => a.tm < b.tm))
    (hx : ((window_slice i alldata).getD 7 samp0).x ≠
      ((window_slice i alldata).getD 0 samp0).x)
    (hy : ((window_slice i alldata).getD 7 samp0).y ≠
      ((window_slice i alldata).getD 0 samp0).y)
    (hz : ((window_slice i alldata).getD 7 samp0).z ≠
      ((window_slice i alldata).getD 0 samp0).z) :
    predict svid day [(key, pd)] 0 (((window_slice i alldata).getD j samp0).tm) =
      ([], (some ((window_slice i alldata).getD j samp0).x,
        some ((window_slice i alldata).getD j samp0).y,
        some ((window_slice i alldata).getD j samp0).z)) := by
  have hguard : ¬ ((i : Int) < 3 ∨ (i : Int) > (alldata.length : Int) - 5) := by
    intro hc
    unfold _poly_lagrange at hok
    rw [if_pos hc] at hok
    exact absurd hok (by simp)
  push_neg at hguard
  have h3 : 3 ≤ i := by omega
  have h5 : i + 5 ≤ alldata.length := by omega
  have hlen8 : (window_slice i alldata).length = 8 :=
    window_slice_length i alldata h3 h5
  rw [poly_lagrange_eq_slice i alldata h3 h5] at hok
  exact poly_lagrange_8_exact svid day (window_slice i alldata) key pd j hj
    hlen8 hok hmono hx hy hz

/-- The key of the fit of the 8-sample series at center 3. -/
def demoKey : ℚ :=
  match _poly_lagrange 3 sampleSeries8 with
  | .ok p => p.1
  | .error _ => 0

/-- The Window Fit of the 8-sample series at center 3. -/
def demoFit : PolyDict :=
  match _poly_lagrange 3 sampleSeries8 with
  | .ok p => p.2
  | .error _ => polyDict0

/-- C9 (witness): exactness applied to the concrete fit of the 8-sample
series at its first source sample. -/
theorem c9_interpolation_exactness_witness :
    predict "G01" "2020042" [(demoKey, demoFit)] 0
        (((window_slice 3 sampleSeries8).getD 0 samp0).tm) =
      ([], (some ((window_slice 3 sampleSeries8).getD 0 samp0).x,
        some ((window_slice 3 sampleSeries8).getD 0 samp0).y,
        some ((window_slice 3 sampleSeries8).getD 0 samp0).z)) :=
  c9_interpolation_exactness "G01" "2020042" 3 sampleSeries8 demoKey demoFit 0
    (by norm_num) (by rfl) (by with_unfolding_all decide)
    (by with_unfolding_all decide) (by with_unfolding_all decide)
    (by with_unfolding_all decide)

/-! ## Properties of the updater state machine -/

theorem upsertFile_map_fst_mem (day : String) (m : Option OrbitDay)
    (files : List (String × Option OrbitDay)) (x : String) :
    x ∈ (upsertFile day m files).map Prod.fst ↔
      x = day ∨ x ∈ files.map Prod.fst := by
  induction files with
  | nil => simp [upsertFile]
  | cons p rest ih =>
      obtain ⟨d, v⟩ := p
      unfold upsertFile
      by_cases h : d = day
      · rw [if_pos h]
        subst h
        simp only [List.map_cons, List.mem_cons]
        tauto
      · rw [if_neg h]
        simp only [List.map_cons, List.mem_cons, ih]
        tauto

theorem update_missing_day_ok {σ : Type} (fetch : String → Tier → Except Unit σ)
    (parse : σ → List (String × Samp)) (acc acc' : List Warn × SatState)
    (day : String)
    (h : update_missing_day fetch parse acc day = .ok acc') :
    acc'.2.orbits = acc.2.orbits ∧
    (∀ x, x ∈ acc.2.metadata → x ∈ acc'.2.metadata) ∧
    day ∈ acc'.2.metadata := by
  unfold update_missing_day at h
  split at h
  · exact absurd h (by simp)
  · split at h
    · exact absurd h (by simp)
    · simp only [Except.ok.injEq] at h
      subst h
      refine ⟨rfl, ?_, ?_⟩
      · intro x hx
        show x ∈ (upsertFile day _ acc.2.files).map Prod.fst
        rw [upsertFile_map_fst_mem]
        exact Or.inr hx
      · show day ∈ (upsertFile day _ acc.2.files).map Prod.fst
        rw [upsertFile_map_fst_mem]
        exact Or.inl rfl

theorem save_fold_ok {σ : Type} (fetch : String → Tier → Except Unit σ)
    (parse : σ → List (String × Samp)) :
    ∀ (missing : List String) (acc acc1 : List Warn × SatState),
      missing.foldlM (update_missing_day fetch parse) acc = .ok acc1 →
      acc1.2.orbits = acc.2.orbits ∧
      (∀ x, x ∈ acc.2.metadata → x ∈ acc1.2.metadata) ∧
      (∀ d ∈ missing, d ∈ acc1.2.metadata) := by
  intro missing
  induction missing with
  | nil =>
      intro acc acc1 h
      rw [List.foldlM_nil] at h
      have h' : (.ok acc : Except Unit (List Warn × SatState)) = .ok acc1 := h
      rw [Except.ok.injEq] at h'
      subst h'
      exact ⟨rfl, fun x hx => hx, by simp⟩
  | cons y rest ih =>
      intro acc acc1 h
      rw [List.foldlM_cons] at h
      cases hy : update_missing_day fetch parse acc y with
      | error e =>
          rw [hy] at h
          exact Except.noConfusion h
      | ok acc' =>
          rw [hy] at h
          have h' : rest.foldlM (update_missing_day fetch parse) acc' = .ok acc1 := h
          obtain ⟨ho, hm, hall⟩ := ih acc' acc1 h'
          obtain ⟨ho2, hm2, hd2⟩ := update_missing_day_ok fetch parse acc acc' y hy
          refine ⟨ho.trans ho2, fun x hx => hm x (hm2 x hx), ?_⟩
          intro d hd
          rcases List.mem_cons.mp hd with heq | hd'
          · subst heq
            exact hm d hd2
          · exact hall d hd'

theorem load_requested_cons (d : String) (rest : List String) (s : SatState) :
    load_requested (d :: rest) s = load_requested rest
      (if (s.orbits.lookup d).isSome then s
       else { s with orbits := (d, _load_orbit s d) :: s.orbits }) := rfl

theorem load_requested_files (ds : List String) : ∀ s : SatState,
    (load_requested ds s).files = s.files := by
  induction ds with
  | nil =>
      intro s
      rfl
  | cons d rest ih =>
      intro s
      rw [load_requested_cons, ih]
      split
      · rfl
      · rfl

theorem load_requested_lookup_some (ds : List String) :
    ∀ (s : SatState) (x : String) (v : OrbitDay),
      s.orbits.lookup x = some v →
      (load_requested ds s).orbits.lookup x = some v := by
  induction ds with
  | nil =>
      intro s x v h
      exact h
  | cons d rest ih =>
      intro s x v h
      rw [load_requested_cons]
      apply ih
      by_cases hd : (s.orbits.lookup d).isSome
      · rw [if_pos hd]
        exact h
      · rw [if_neg hd]
        show List.lookup x ((d, _load_orbit s d) :: s.orbits) = some v
        by_cases hxd : x = d
        · subst hxd
          rw [h] at hd
          simp at hd
        · have hb : (x == d) = false := beq_eq_false_iff_ne.mpr hxd
          simp only [List.lookup, hb]
          exact h

theorem load_orbit_congr (s1 s2 : SatState) (x : String)
    (h : s1.files = s2.files) : _load_orbit s1 x = _load_orbit s2 x := by
  unfold _load_orbit
  rw [h]

theorem load_requested_lookup_mem (ds : List String) :
    ∀ (s : SatState) (x : String), x ∈ ds → s.orbits.lookup x = none →
      (load_requested ds s).orbits.lookup x = some (_load_orbit s x) := by
  induction ds with
  | nil =>
      intro s x h
      exact absurd h (List.not_mem_nil _)
  | cons d rest ih =>
      intro s x hmem h0
      rw [load_requested_cons]
      by_cases hxd : x = d
      · subst hxd
        rw [if_neg (by rw [h0]; simp)]
        apply load_requested_lookup_some
        show List.lookup x ((x, _load_orbit s x) :: s.orbits) = some (_load_orbit s x)
        simp [List.lookup]
      · rcases List.mem_cons.mp hmem with heq | hmem'
        · exact absurd heq hxd
        · have hstep_files : (if (s.orbits.lookup d).isSome then s
              else { s with orbits := (d, _load_orbit s d) :: s.orbits }).files
              = s.files := by
            split
            · rfl
            · rfl
          have hstep_lookup : (if (s.orbits.lookup d).isSome then s
              else { s with orbits :=
                (d, _load_orbit s d) :: s.orbits }).orbits.lookup x = none := by
            split
            · exact h0
            · show List.lookup x ((d, _load_orbit s d) :: s.orbits) = none
              have hb : (x == d) = false := beq_eq_false_iff_ne.mpr hxd
              simp only [List.lookup, hb]
              exact h0
          rw [ih _ x hmem' hstep_lookup, load_orbit_congr _ s x hstep_files]

/-- C8: after a completed `_update_orbits(days)` call, every requested day
is a key of the in-memory cache; a requested day that was not already cached
and whose persisted record cannot be read back stores the empty model; and
every requested day ends up in the persisted metadata, so no later
`_update_orbits` call counts it among its missing days (acquisition is only
attempted for missing days) and neither a lookup nor a repeated call
re-attempts acquisition in the same process. -/
theorem c8_update_orbits_cache {σ : Type} (fetch : String → Tier → Except Unit σ)
    (parse : σ → List (String × Samp)) (days : List String) (s s' : SatState)
    (w : List Warn)
    (hok : _update_orbits fetch parse days s = .ok (w, s')) :
    (∀ d ∈ days, (s'.orbits.lookup d).isSome = true) ∧
    (∀ d ∈ days, s.orbits.lookup d = none →
      (∀ m : OrbitDay, s'.files.lookup d ≠ some (some m)) →
      s'.orbits.lookup d = some []) ∧
    (∀ d ∈ days, d ∈ s'.metadata ∧
      ∀ days2 : List String, ¬ d ∈ missing_days days2 s') := by
  unfold _update_orbits at hok
  cases hf : (missing_days days s).foldlM (update_missing_day fetch parse)
      ([], s) with
  | error e =>
      rw [hf] at hok
      exact absurd hok (by simp)
  | ok acc1 =>
      rw [hf] at hok
      simp only [Except.ok.injEq, Prod.mk.injEq] at hok
      obtain ⟨hw, hs'⟩ := hok
      subst hs'
      obtain ⟨ho1, hm1, hall1⟩ :=
        save_fold_ok fetch parse (missing_days days s) ([], s) acc1 hf
      have hmeta_all : ∀ d ∈ days, d ∈ acc1.2.metadata := by
        intro d hd
        by_cases hmem : d ∈ s.metadata
        · exact hm1 d hmem
        · apply hall1
          unfold missing_days
          rw [List.mem_filter]
          refine ⟨List.mem_dedup.mpr hd, ?_⟩
          simpa using hmem
      refine ⟨?_, ?_, ?_⟩
      · intro d hd
        have hdd : d ∈ days.dedup := List.mem_dedup.mpr hd
        cases hcase : acc1.2.orbits.lookup d with
        | some v =>
            rw [load_requested_lookup_some days.dedup acc1.2 d v hcase]
            rfl
        | none =>
            rw [load_requested_lookup_mem days.dedup acc1.2 d hdd hcase]
            rfl
      · intro d hd h0 habs
        have hdd : d ∈ days.dedup := List.mem_dedup.mpr hd
        have h0' : acc1.2.orbits.lookup d = none := by
          rw [ho1]
          exact h0
        rw [load_requested_lookup_mem days.dedup acc1.2 d hdd h0']
        rw [load_requested_files days.dedup acc1.2] at habs
        unfold _load_orbit
        cases hlk : acc1.2.files.lookup d with
        | none => rfl
        | some o =>
            cases o with
            | none => rfl
            | some m => exact absurd hlk (habs m)
      · intro d hd
        have hmeta' : d ∈ (load_requested days.dedup acc1.2).metadata := by
          show d ∈ (load_requested days.dedup acc1.2).files.map Prod.fst
          rw [load_requested_files days.dedup acc1.2]
          exact hmeta_all d hd
        refine ⟨hmeta', ?_⟩
        intro days2
        unfold missing_days
        rw [List.mem_filter]
        rintro ⟨_, hfilt⟩
        simp only [decide_eq_true_eq] at hfilt
        exact hfilt hmeta'

/-- A state whose only persisted record is an (empty) model for the day
`2020042`: requesting that day must hit the load path, not acquisition. -/
def seededState : SatState := ⟨[], [("2020042", some [])]⟩

/-- C8 (witness): the cache theorem applied to a concrete completed call:
requesting the already-persisted day `2020042` caches it. -/
theorem c8_update_orbits_cache_witness :
    (((⟨[("2020042", [])], [("2020042", some [])]⟩ : SatState)).orbits.lookup
      "2020042").isSome = true :=
  (c8_update_orbits_cache failFetch parse0 ["2020042"] seededState
      ⟨[("2020042", [])], [("2020042", some [])]⟩ [] rfl).1
    "2020042" (List.mem_singleton.mpr rfl)

